import Mathlib

/-!
Verification of the RecycleContent extension core against its design spec.

The JavaScript sources are shallowly embedded: pure functions become Lean
functions, the stateful managers (`ExclusionListManager`, `MessageQueue`)
become explicit state-passing functions over record states, fallible
operations return `Except`, and the browser key-value store is modelled as
an association list together with fault flags for injected read/write
failures.
-/

namespace RecycleContent

/-! ## Exclusion list manager (src/scripts/services/exclusionList.js) -/

/-- First-occurrence deduplication with an accumulator of already-seen
values.  `dedupFirstAux seen l` keeps each element of `l` that is neither in
`seen` nor occurred earlier in `l`, in order of first occurrence.  This is
the order/dedup semantics of the JavaScript `new Set(iterable)` used by
`mergeAndDeduplicate`. -/
def dedupFirstAux (seen : List String) : List String → List String
  | [] => []
  | x :: xs =>
    if x ∈ seen then dedupFirstAux seen xs
    else x :: dedupFirstAux (x :: seen) xs

/-- `Array.from(new Set(l))` : keep the first occurrence of each value. -/
def dedupFirst (l : List String) : List String := dedupFirstAux [] l

/-- `mergeAndDeduplicate(existingList, newList)` from exclusionList.js:
`Array.from(new Set([...existingList, ...newList]))`. -/
def mergeAndDeduplicate (existingList newList : List String) : List String :=
  dedupFirst (existingList ++ newList)

theorem mem_dedupFirstAux {x : String} :
    ∀ (l seen : List String),
      x ∈ dedupFirstAux seen l ↔ x ∈ l ∧ x ∉ seen := by
  intro l
  induction l with
  | nil => intro seen; simp [dedupFirstAux]
  | cons y ys ih =>
    intro seen
    by_cases hy : y ∈ seen
    · rw [dedupFirstAux, if_pos hy, ih]
      constructor
      · rintro ⟨hx, hs⟩
        exact ⟨List.mem_cons_of_mem _ hx, hs⟩
      · rintro ⟨hx, hs⟩
        rcases List.mem_cons.mp hx with rfl | hx'
        · exact absurd hy hs
        · exact ⟨hx', hs⟩
    · rw [dedupFirstAux, if_neg hy]
      constructor
      · intro hmem
        rcases List.mem_cons.mp hmem with rfl | hx
        · exact ⟨List.mem_cons_self x ys, hy⟩
        · obtain ⟨h1, h2⟩ := (ih (y :: seen)).mp hx
          exact ⟨List.mem_cons_of_mem _ h1, fun hc => h2 (List.mem_cons_of_mem _ hc)⟩
      · rintro ⟨hx, hs⟩
        rcases List.mem_cons.mp hx with rfl | hx'
        · exact List.mem_cons_self x _
        · by_cases hxy : x = y
          · rw [hxy]; exact List.mem_cons_self y _
          · refine List.mem_cons_of_mem _ ((ih (y :: seen)).mpr ⟨hx', ?_⟩)
            intro hc
            rcases List.mem_cons.mp hc with h | h
            exacts [hxy h, hs h]

theorem nodup_dedupFirstAux :
    ∀ (l seen : List String), (dedupFirstAux seen l).Nodup := by
  intro l
  induction l with
  | nil => intro seen; simp [dedupFirstAux]
  | cons y ys ih =>
    intro seen
    by_cases hy : y ∈ seen
    · simpa [dedupFirstAux, hy] using ih seen
    · simp only [dedupFirstAux, if_neg hy, List.nodup_cons]
      refine ⟨fun hmem => ?_, ih (y :: seen)⟩
      exact (mem_dedupFirstAux ys (y :: seen)).mp hmem |>.2 (List.mem_cons_self y seen)

/-- `dedupFirstAux` only consults membership in `seen`, so it is invariant
under replacing `seen` by a list with the same members. -/
theorem dedupFirstAux_congr :
    ∀ (l s₁ s₂ : List String), (∀ x, x ∈ s₁ ↔ x ∈ s₂) →
      dedupFirstAux s₁ l = dedupFirstAux s₂ l := by
  intro l
  induction l with
  | nil => intro s₁ s₂ _; rfl
  | cons y ys ih =>
    intro s₁ s₂ h
    by_cases hy : y ∈ s₁
    · simp only [dedupFirstAux, if_pos hy, if_pos ((h y).mp hy)]
      exact ih s₁ s₂ h
    · have hy₂ : y ∉ s₂ := fun hc => hy ((h y).mpr hc)
      simp only [dedupFirstAux, if_neg hy, if_neg hy₂]
      refine congrArg (y :: ·) (ih _ _ fun x => ?_)
      simp [List.mem_cons, h x]

/-- Splitting a deduplication of an append: the first block is deduplicated
with the original `seen`, the second with `seen` enlarged by the first
block's elements. -/
theorem dedupFirstAux_append :
    ∀ (l₁ l₂ seen : List String),
      dedupFirstAux seen (l₁ ++ l₂) =
        dedupFirstAux seen l₁ ++ dedupFirstAux (l₁ ++ seen) l₂ := by
  intro l₁
  induction l₁ with
  | nil => intro l₂ seen; simp [dedupFirstAux]
  | cons y ys ih =>
    intro l₂ seen
    have hcons : (y :: ys) ++ l₂ = y :: (ys ++ l₂) := rfl
    rw [hcons]
    by_cases hy : y ∈ seen
    · rw [dedupFirstAux, if_pos hy, dedupFirstAux, if_pos hy, ih]
      refine congrArg _ (dedupFirstAux_congr _ _ _ fun x => ?_)
      simp only [List.mem_append, List.mem_cons]
      constructor
      · rintro (hx | hx)
        · exact Or.inl (Or.inr hx)
        · exact Or.inr hx
      · rintro (hx | hx)
        · rcases hx with rfl | hx
          · exact Or.inr hy
          · exact Or.inl hx
        · exact Or.inr hx
    · rw [dedupFirstAux, if_neg hy, dedupFirstAux, if_neg hy, ih]
      have hmem : ∀ x : String, x ∈ ys ++ (y :: seen) ↔ x ∈ (y :: ys) ++ seen := by
        intro x
        simp only [List.mem_append, List.mem_cons]
        tauto
      exact congrArg (y :: ·) (congrArg _ (dedupFirstAux_congr _ _ _ hmem))

/-- Deduplicating with a pre-seeded `seen` list equals deduplicating from
scratch and then filtering the seen values out. -/
theorem dedupFirstAux_eq_filter :
    ∀ (l s t : List String),
      dedupFirstAux (s ++ t) l =
        (dedupFirstAux t l).filter (fun x => decide (x ∉ s)) := by
  intro l
  induction l with
  | nil => intro s t; rfl
  | cons y ys ih =>
    intro s t
    by_cases hyt : y ∈ t
    · have hyst : y ∈ s ++ t := List.mem_append_right s hyt
      rw [dedupFirstAux, if_pos hyst, dedupFirstAux, if_pos hyt]
      exact ih s t
    · by_cases hys : y ∈ s
      · have hyst : y ∈ s ++ t := List.mem_append_left t hys
        have hfalse : (decide (y ∉ s)) = false := decide_eq_false fun h => h hys
        rw [dedupFirstAux, if_pos hyst, dedupFirstAux, if_neg hyt, List.filter_cons,
          hfalse]
        simp only [Bool.false_eq_true, if_false]
        rw [← ih s (y :: t)]
        refine dedupFirstAux_congr _ _ _ fun x => ?_
        simp only [List.mem_append, List.mem_cons]
        constructor
        · rintro (hx | hx)
          · exact Or.inl hx
          · exact Or.inr (Or.inr hx)
        · rintro (hx | rfl | hx)
          · exact Or.inl hx
          · exact Or.inl hys
          · exact Or.inr hx
      · have hyst : y ∉ s ++ t := by
          simp only [List.mem_append]; rintro (h | h); exacts [hys h, hyt h]
        have htrue : (decide (y ∉ s)) = true := decide_eq_true hys
        rw [dedupFirstAux, if_neg hyst, dedupFirstAux, if_neg hyt, List.filter_cons,
          htrue]
        simp only [if_true]
        refine congrArg (y :: ·) ?_
        rw [← ih s (y :: t)]
        refine dedupFirstAux_congr _ _ _ fun x => ?_
        simp only [List.mem_append, List.mem_cons]
        tauto

theorem mem_mergeAndDeduplicate {x : String} {l₁ l₂ : List String} :
    x ∈ mergeAndDeduplicate l₁ l₂ ↔ x ∈ l₁ ∨ x ∈ l₂ := by
  simp [mergeAndDeduplicate, dedupFirst, mem_dedupFirstAux]

theorem nodup_mergeAndDeduplicate (l₁ l₂ : List String) :
    (mergeAndDeduplicate l₁ l₂).Nodup :=
  nodup_dedupFirstAux _ _

/-- Order shape of the merged list: the (first occurrences of the) elements
of `l₁` in their original order, followed by the first occurrences of the
elements of `l₂` that do not occur in `l₁`, in their order within `l₂`. -/
theorem mergeAndDeduplicate_eq_append (l₁ l₂ : List String) :
    mergeAndDeduplicate l₁ l₂ =
      dedupFirst l₁ ++ (dedupFirst l₂).filter (fun x => decide (x ∉ l₁)) := by
  unfold mergeAndDeduplicate dedupFirst
  rw [dedupFirstAux_append]
  refine congrArg _ ?_
  have h := dedupFirstAux_eq_filter l₂ l₁ []
  simpa using h

/-- Deduplicating a list that is already duplicate-free and already contains
every element of the appended tail returns the list unchanged. -/
theorem dedupFirstAux_append_absorb :
    ∀ (l l₂ seen : List String), l.Nodup → (∀ x ∈ l, x ∉ seen) →
      (∀ x ∈ l₂, x ∈ seen ∨ x ∈ l) →
      dedupFirstAux seen (l ++ l₂) = l := by
  intro l
  induction l with
  | nil =>
    intro l₂ seen _ _ h3
    simp only [List.nil_append]
    induction l₂ with
    | nil => rfl
    | cons z zs ihz =>
      have hz : z ∈ seen := by
        rcases h3 z (List.mem_cons_self z zs) with h | h
        · exact h
        · exact absurd h (List.not_mem_nil z)
      rw [dedupFirstAux, if_pos hz]
      exact ihz fun x hx => h3 x (List.mem_cons_of_mem _ hx)
  | cons y ys ih =>
    intro l₂ seen hnd hns h3
    have hy : y ∉ seen := hns y (List.mem_cons_self y ys)
    have hcons : (y :: ys) ++ l₂ = y :: (ys ++ l₂) := rfl
    rw [hcons, dedupFirstAux, if_neg hy]
    refine congrArg (y :: ·) (ih l₂ (y :: seen) (List.nodup_cons.mp hnd).2 ?_ ?_)
    · intro x hx hmem
      rcases List.mem_cons.mp hmem with rfl | hmem'
      · exact (List.nodup_cons.mp hnd).1 hx
      · exact hns x (List.mem_cons_of_mem _ hx) hmem'
    · intro x hx
      rcases h3 x hx with h | h
      · exact Or.inl (List.mem_cons_of_mem _ h)
      · rcases List.mem_cons.mp h with rfl | h'
        · exact Or.inl (List.mem_cons_self x seen)
        · exact Or.inr h'

/-- Merging a second time with the same new list is the identity, not just
up to set equality but as lists. -/
theorem mergeAndDeduplicate_absorb (l₁ l₂ : List String) :
    mergeAndDeduplicate (mergeAndDeduplicate l₁ l₂) l₂ = mergeAndDeduplicate l₁ l₂ := by
  unfold mergeAndDeduplicate dedupFirst
  refine dedupFirstAux_append_absorb _ _ _ (nodup_dedupFirstAux _ _) (by simp) ?_
  intro x hx
  exact Or.inr ((mem_dedupFirstAux (l₁ ++ l₂) []).mpr ⟨List.mem_append_right l₁ hx, by simp⟩)

/-! ### State model of `ExclusionListManager`

The manager's observable state: the in-memory `cache` (a JS `Map`, modelled
as an association list where an insert shadows older entries), whether
`chrome.storage.local` was available at construction (`hasStorage`), the
persisted key-value `store`, and two fault-injection flags standing for the
store's `get`/`set` promises rejecting with an I/O error. -/

/-- A value persisted in the key-value store, classified by how
`JSON.parse` treats it: a string `JSON.parse` rejects, a JSON value that is
not an array, a JSON array of strings, or the empty string (which is falsy,
so `getOrCreateList` treats it like an absent entry). -/
inductive StoredData where
  | malformed : StoredData
  | nonArrayJson : StoredData
  | jsonArray : List String → StoredData
  | emptyString : StoredData
deriving DecidableEq, Repr

/-- JavaScript truthiness of the stored serialized string. -/
def StoredData.truthy : StoredData → Bool
  | .emptyString => false
  | _ => true

/-- `deserializeList(data)` from exclusionList.js: `JSON.parse`, returning
`[]` when parsing throws or when the parsed value is not an array. -/
def deserializeList : StoredData → List String
  | .jsonArray xs => xs
  | _ => []

/-- `serializeList(list)`: `JSON.stringify` of an array of strings. -/
def serializeList (l : List String) : StoredData := .jsonArray l

/-- Insert-or-replace into an association list; the new binding shadows any
older one, as `Map.set` / `storage.set` do. -/
def mapSet {β : Type} (m : List (String × β)) (k : String) (v : β) :
    List (String × β) :=
  (k, v) :: m

structure ELMState where
  cache : List (String × List String)
  hasStorage : Bool
  store : List (String × StoredData)
  getFails : Bool
  setFails : Bool
deriving Repr

/-- The storage key `exclusion_<messageId>`. -/
def exclusionKey (messageId : String) : String := "exclusion_" ++ messageId

/-- `createNewList(messageId)`: make an empty list, persist it when storage
is present (a rejected `set` is caught and only logged), and cache it. -/
def createNewList (s : ELMState) (messageId : String) :
    List String × ELMState :=
  let s1 :=
    if s.hasStorage && !s.setFails then
      { s with store := mapSet s.store (exclusionKey messageId) (serializeList []) }
    else s
  ([], { s1 with cache := mapSet s1.cache messageId [] })

/-- `getOrCreateList(messageId)`: cache hit returns immediately; with no
storage reference, return `[]` without touching the cache; otherwise read
the key (a rejected `get` is caught and only logged, falling through to
`createNewList`); a truthy stored value is deserialized and cached. -/
def getOrCreateList (s : ELMState) (messageId : String) :
    List String × ELMState :=
  match s.cache.lookup messageId with
  | some l => (l, s)
  | none =>
    if !s.hasStorage then ([], s)
    else if s.getFails then createNewList s messageId
    else
      match s.store.lookup (exclusionKey messageId) with
      | some v =>
        if v.truthy then
          let l := deserializeList v
          (l, { s with cache := mapSet s.cache messageId l })
        else createNewList s messageId
      | none => createNewList s messageId

/-- `updateList(messageId, newBuyers)`: fetch the current list, merge and
deduplicate, persist when storage is present (failures only logged), cache,
and return the updated list. -/
def updateList (s : ELMState) (messageId : String) (newBuyers : List String) :
    List String × ELMState :=
  let r := getOrCreateList s messageId
  let updated := mergeAndDeduplicate r.1 newBuyers
  let s2 :=
    if r.2.hasStorage && !r.2.setFails then
      { r.2 with store := mapSet r.2.store (exclusionKey messageId) (serializeList updated) }
    else r.2
  (updated, { s2 with cache := mapSet s2.cache messageId updated })

theorem updateList_cache_lookup (s : ELMState) (id : String) (b : List String) :
    ((updateList s id b).2).cache.lookup id = some (updateList s id b).1 := by
  unfold updateList
  simp [mapSet, List.lookup]

theorem getOrCreateList_cache_hit (s : ELMState) (id : String) (l : List String)
    (h : s.cache.lookup id = some l) :
    getOrCreateList s id = (l, s) := by
  unfold getOrCreateList
  rw [h]

/-- C1: `mergeAndDeduplicate(L1, L2)` contains `x` iff `x ∈ L1` or
`x ∈ L2` (exact string equality), has no element twice, and is ordered as
the elements of `L1` first in their original (first-seen) order followed by
the elements of `L2` not in `L1` in their input (first-seen) order. -/
theorem C1_mergeAndDeduplicate_union (l₁ l₂ : List String) :
    (∀ x, x ∈ mergeAndDeduplicate l₁ l₂ ↔ x ∈ l₁ ∨ x ∈ l₂) ∧
    (mergeAndDeduplicate l₁ l₂).Nodup ∧
    mergeAndDeduplicate l₁ l₂ =
      dedupFirst l₁ ++ (dedupFirst l₂).filter (fun x => decide (x ∉ l₁)) :=
  ⟨fun _ => mem_mergeAndDeduplicate, nodup_mergeAndDeduplicate l₁ l₂,
    mergeAndDeduplicate_eq_append l₁ l₂⟩

/-- C8: `updateList` is idempotent under exact duplicate input — the second
of two consecutive `updateList(id, B)` calls returns the same final list
(same contents and order) and leaves the same list cached; and
`mergeAndDeduplicate(mergeAndDeduplicate(L1, L2), L2)` equals
`mergeAndDeduplicate(L1, L2)` (as lists, hence in particular as sets). -/
theorem C8_updateList_idempotent (s : ELMState) (id : String) (b : List String) :
    ((updateList (updateList s id b).2 id b).1 = (updateList s id b).1) ∧
    (((updateList (updateList s id b).2 id b).2).cache.lookup id =
       some (updateList s id b).1) ∧
    (∀ l₁ l₂ : List String,
       mergeAndDeduplicate (mergeAndDeduplicate l₁ l₂) l₂ =
         mergeAndDeduplicate l₁ l₂) := by
  have hfst : ∀ (S : ELMState),
      (updateList S id b).1 = mergeAndDeduplicate (getOrCreateList S id).1 b :=
    fun S => rfl
  have hhit := getOrCreateList_cache_hit ((updateList s id b).2) id
    ((updateList s id b).1) (updateList_cache_lookup s id b)
  have hval : (updateList (updateList s id b).2 id b).1 = (updateList s id b).1 := by
    rw [hfst, hhit]
    rw [hfst s]
    exact mergeAndDeduplicate_absorb _ b
  refine ⟨hval, ?_, fun l₁ l₂ => mergeAndDeduplicate_absorb l₁ l₂⟩
  rw [updateList_cache_lookup, hval]

/-- C5: `getOrCreateList` (with the storage reference present) never
propagates an error: a malformed stored value deserializes to `[]`, a
rejected store read degrades to `createNewList`'s `[]`, a never-seen
message ID yields `[]` which is cached so that the next call is a pure
cache hit returning the same list with the state unchanged; and a cache
hit never performs a store read (the result does not depend on the store
at all). -/
theorem C5_getOrCreateList_degrades (s : ELMState) (id : String)
    (hnc : s.cache.lookup id = none) (hst : s.hasStorage = true) :
    (s.getFails = false → s.store.lookup (exclusionKey id) = some .malformed →
       (getOrCreateList s id).1 = []) ∧
    (s.getFails = true → (getOrCreateList s id).1 = []) ∧
    (s.getFails = false → s.store.lookup (exclusionKey id) = none →
       (getOrCreateList s id).1 = [] ∧
       ((getOrCreateList s id).2).cache.lookup id = some [] ∧
       getOrCreateList (getOrCreateList s id).2 id = ([], (getOrCreateList s id).2)) ∧
    (∀ (s' : ELMState) (l : List String), s'.cache.lookup id = some l →
       getOrCreateList s' id = (l, s')) := by
  refine ⟨?_, ?_, ?_, fun s' l h => getOrCreateList_cache_hit s' id l h⟩
  · intro hg hlook
    simp [getOrCreateList, hnc, hst, hg, hlook, StoredData.truthy, deserializeList]
  · intro hg
    simp [getOrCreateList, hnc, hst, hg, createNewList]
  · intro hg hlook
    have h1 : getOrCreateList s id = createNewList s id := by
      simp [getOrCreateList, hnc, hst, hg, hlook]
    have h2 : ((createNewList s id).2).cache.lookup id = some [] := by
      simp [createNewList, mapSet, List.lookup]
    refine ⟨by rw [h1]; rfl, by rw [h1]; exact h2, ?_⟩
    rw [h1]
    exact getOrCreateList_cache_hit ((createNewList s id).2) id [] h2

/-- Witness for C5 at concrete states: a malformed stored entry, a failing
store read, and a fresh ID each yield `[]`. -/
theorem C5_witness :
    (getOrCreateList ⟨[], true, [("exclusion_m1", .malformed)], false, false⟩ "m1").1 = [] ∧
    (getOrCreateList ⟨[], true, [], true, false⟩ "m1").1 = [] ∧
    (getOrCreateList ⟨[], true, [], false, false⟩ "m1").1 = [] := by
  refine ⟨?_, ?_, ?_⟩
  · exact (C5_getOrCreateList_degrades ⟨[], true, [("exclusion_m1", .malformed)], false, false⟩
      "m1" rfl rfl).1 rfl (by decide)
  · exact (C5_getOrCreateList_degrades ⟨[], true, [], true, false⟩ "m1" rfl rfl).2.1 rfl
  · exact ((C5_getOrCreateList_degrades ⟨[], true, [], false, false⟩ "m1" rfl rfl).2.2.1
      rfl rfl).1

/-- C10: with the storage reference absent and the ID not cached,
`getOrCreateList` returns `[]` and leaves the state — in particular the
cache — completely unchanged, so a second call takes the same non-cached
path and returns a fresh `[]` again. -/
theorem C10_getOrCreateList_noStorage (s : ELMState) (id : String)
    (hst : s.hasStorage = false) (hnc : s.cache.lookup id = none) :
    getOrCreateList s id = ([], s) ∧
    ((getOrCreateList s id).2).cache = s.cache ∧
    getOrCreateList (getOrCreateList s id).2 id = ([], s) := by
  have h : getOrCreateList s id = ([], s) := by
    simp [getOrCreateList, hnc, hst]
  exact ⟨h, by rw [h], by rw [h]; exact h⟩

/-- Witness for C10 at a concrete storage-less state. -/
theorem C10_witness :
    getOrCreateList ⟨[("other", ["x"])], false, [], false, false⟩ "m1" =
      ([], ⟨[("other", ["x"])], false, [], false, false⟩) :=
  (C10_getOrCreateList_noStorage ⟨[("other", ["x"])], false, [], false, false⟩ "m1"
    rfl (by decide)).1

/-! ## Message queue (src/unnamed/part_015, messageQueue.js)

A queued message has an `id`, a `payload` (standing for all fields other
than `id` and `retryCount`), and a `retryCount`.  The queue state is the
internal array plus the configured retry limit.  Persistence
(`_saveToStorage`) is best-effort and never affects the in-memory queue, so
it is not part of the observable state; the `onDrop` event hook is
observed through the list of messages it would be invoked on. -/

structure Msg where
  id : String
  payload : String
  retryCount : Nat
deriving DecidableEq, Repr

structure MessageQueue where
  queue : List Msg
  retryLimit : Nat
deriving DecidableEq, Repr

/-- `size()`: the number of queued messages. -/
def MessageQueue.size (q : MessageQueue) : Nat := q.queue.length

/-- `enqueue(message)`: throws when the message has a falsy `id`; returns
`false` leaving the queue untouched when an entry with the same `id` is
already present; otherwise appends `{ ...message, retryCount: 0 }` and
returns `true`. -/
def enqueue (q : MessageQueue) (m : Msg) : Except String (Bool × MessageQueue) :=
  if m.id = "" then .error "message must have an id"
  else if q.queue.any (fun e => e.id == m.id) then .ok (false, q)
  else .ok (true, { q with queue := q.queue ++ [{ m with retryCount := 0 }] })

/-- `peek()`: head of the queue without mutation (`null` on empty). -/
def peek (q : MessageQueue) : Option Msg := q.queue.head?

/-- `dequeue()`: `queue.shift() || null`. -/
def dequeue (q : MessageQueue) : Option Msg × MessageQueue :=
  (q.queue.head?, { q with queue := q.queue.tail })

/-- Result of one `handleRetry` call: the returned boolean (`true` means
dropped), the arguments of the `onDrop` invocations performed during the
call, and the queue state afterwards. -/
structure RetryResult where
  dropped : Bool
  dropCalls : List Msg
  state : MessageQueue
deriving DecidableEq, Repr

/-- `handleRetry(message)`: increment `retryCount`; when the new count
exceeds `retryLimit`, remove every entry with the message's `id`
(`_removeMessageById` filters the whole array) and invoke `onDrop` once;
otherwise `unshift` the message onto the front of the queue. -/
def handleRetry (q : MessageQueue) (m : Msg) : RetryResult :=
  let m' : Msg := { m with retryCount := m.retryCount + 1 }
  if q.retryLimit < m'.retryCount then
    { dropped := true, dropCalls := [m'],
      state := { q with queue := q.queue.filter (fun e => !(e.id == m.id)) } }
  else
    { dropped := false, dropCalls := [],
      state := { q with queue := m' :: q.queue } }

/-- C2: enqueueing a message whose `id` is already held by some queue entry
returns `false` and leaves the queue (hence `size()`) unchanged; `enqueue`
preserves the at-most-one-entry-per-id invariant; and enqueueing the same
`id` twice starting from an empty queue leaves `size() = 1` with the second
call returning `false`.  The `m.id ≠ ""` hypothesis excludes the falsy ids
`enqueue` itself throws on, so no reachable entry carries one. -/
theorem C2_enqueue_duplicate_rejected (q : MessageQueue) (m : Msg)
    (hid : m.id ≠ "") :
    ((∃ e ∈ q.queue, e.id = m.id) → enqueue q m = .ok (false, q)) ∧
    (∀ b q', (q.queue.map Msg.id).Nodup → enqueue q m = .ok (b, q') →
       (q'.queue.map Msg.id).Nodup) ∧
    (∀ rl : Nat, ∃ q₁ : MessageQueue,
       enqueue ⟨[], rl⟩ m = .ok (true, q₁) ∧
       enqueue q₁ m = .ok (false, q₁) ∧ q₁.size = 1) := by
  refine ⟨?_, ?_, ?_⟩
  · rintro ⟨e, he, heq⟩
    have hany : q.queue.any (fun e => e.id == m.id) = true := by
      rw [List.any_eq_true]
      exact ⟨e, he, by simp [heq]⟩
    simp [enqueue, hid, hany]
  · intro b q' hnd henq
    by_cases hany : q.queue.any (fun e => e.id == m.id)
    · simp only [enqueue, if_neg hid, hany, if_true, ite_true] at henq
      obtain ⟨_, rfl⟩ := Prod.mk.injEq .. ▸ (Except.ok.injEq _ _ ▸ henq)
      exact hnd
    · rw [Bool.not_eq_true] at hany
      simp only [enqueue, if_neg hid, hany, Bool.false_eq_true, if_false,
        Except.ok.injEq, Prod.mk.injEq] at henq
      obtain ⟨_, rfl⟩ := henq
      have hnotin : m.id ∉ q.queue.map Msg.id := by
        intro hc
        rcases List.mem_map.mp hc with ⟨e, he, heq⟩
        have := (List.any_eq_false.mp hany) e he
        simp [heq] at this
      simp only [List.map_append, List.map_cons, List.map_nil]
      rw [List.nodup_append]
      refine ⟨hnd, List.nodup_singleton _, ?_⟩
      intro a ha hb
      rcases List.mem_singleton.mp hb with rfl
      exact hnotin ha
  · intro rl
    refine ⟨⟨[{ m with retryCount := 0 }], rl⟩, ?_, ?_, rfl⟩
    · simp [enqueue, hid]
    · simp [enqueue, hid]

/-- Witness for C2: a duplicate-id enqueue on a concrete one-element queue
is rejected without change. -/
theorem C2_witness :
    enqueue ⟨[⟨"a", "x", 0⟩], 3⟩ ⟨"a", "p", 5⟩ =
      .ok (false, ⟨[⟨"a", "x", 0⟩], 3⟩) :=
  (C2_enqueue_duplicate_rejected ⟨[⟨"a", "x", 0⟩], 3⟩ ⟨"a", "p", 5⟩ (by decide)).1
    ⟨⟨"a", "x", 0⟩, by simp, rfl⟩

/-- C9: a successful `enqueue` stores the message with `retryCount` forced
to `0` — even when the caller supplied a nonzero `retryCount` — while `id`
and the rest of the message (`payload`) are preserved verbatim in the
appended entry. -/
theorem C9_enqueue_resets_retryCount (q : MessageQueue) (m : Msg)
    (hid : m.id ≠ "") (hnew : ∀ e ∈ q.queue, e.id ≠ m.id) :
    enqueue q m =
      .ok (true, { q with queue := q.queue ++ [⟨m.id, m.payload, 0⟩] }) := by
  have hany : q.queue.any (fun e => e.id == m.id) = false := by
    rw [List.any_eq_false]
    intro e he
    simp [hnew e he]
  simp [enqueue, hid, hany]

/-- Witness for C9: a message supplied with `retryCount = 7` is stored with
`retryCount = 0` and its payload intact. -/
theorem C9_witness :
    enqueue ⟨[], 3⟩ ⟨"a", "pay", 7⟩ =
      .ok (true, ⟨[⟨"a", "pay", 0⟩], 3⟩) :=
  C9_enqueue_resets_retryCount ⟨[], 3⟩ ⟨"a", "pay", 7⟩ (by decide)
    (by intro e he; cases he)

/-- C3 counterexample: `handleRetry` on a message still sitting in the
queue (e.g. obtained from `peek`) does not leave `size()` unchanged in the
re-insert branch — the message is `unshift`ed without being removed, so the
size grows from 1 to 2. -/
theorem C3_counterexample :
    (handleRetry ⟨[⟨"a", "p", 0⟩], 3⟩ ⟨"a", "p", 0⟩).dropped = false ∧
    (handleRetry ⟨[⟨"a", "p", 0⟩], 3⟩ ⟨"a", "p", 0⟩).state.size = 2 ∧
    ¬((handleRetry ⟨[⟨"a", "p", 0⟩], 3⟩ ⟨"a", "p", 0⟩).state.size =
        (MessageQueue.mk [⟨"a", "p", 0⟩] 3).size) := by
  refine ⟨rfl, rfl, ?_⟩
  intro h
  simp [handleRetry, MessageQueue.size] at h

/-- C3 (amended): `handleRetry(m)` uses `retryCount` incremented by exactly
1.  When the new count exceeds `retryLimit`, the entry with `m`'s id is
removed (when exactly one such entry is present, `size()` decreases by
one), the drop callback is invoked exactly once, and no entry with `m`'s
id remains.  Otherwise `m` is re-inserted at the front (it becomes the
head returned by `peek`), which by itself increases `size()` by one; in
the delivery protocol — `m` was just dequeued from the head — the retry
branch leaves `size()` unchanged and the drop branch decreases it by one,
both measured against the queue before the dequeue. -/
theorem C3_handleRetry_amended (q : MessageQueue) (m : Msg) :
    (q.retryLimit < m.retryCount + 1 →
       (handleRetry q m).dropped = true ∧
       (handleRetry q m).dropCalls = [⟨m.id, m.payload, m.retryCount + 1⟩] ∧
       (∀ e ∈ (handleRetry q m).state.queue, e.id ≠ m.id) ∧
       ((q.queue.countP (fun e => e.id == m.id)) = 1 →
          (handleRetry q m).state.size + 1 = q.size)) ∧
    (m.retryCount + 1 ≤ q.retryLimit →
       (handleRetry q m).dropped = false ∧
       (handleRetry q m).dropCalls = [] ∧
       peek (handleRetry q m).state = some ⟨m.id, m.payload, m.retryCount + 1⟩ ∧
       (handleRetry q m).state.size = q.size + 1) ∧
    (∀ rest, q.queue = m :: rest →
       (q.retryLimit < m.retryCount + 1 → (∀ e ∈ rest, e.id ≠ m.id) →
          (handleRetry (dequeue q).2 m).state.size + 1 = q.size ∧
          (handleRetry (dequeue q).2 m).dropCalls.length = 1) ∧
       (m.retryCount + 1 ≤ q.retryLimit →
          (handleRetry (dequeue q).2 m).state.size = q.size ∧
          peek (handleRetry (dequeue q).2 m).state =
            some ⟨m.id, m.payload, m.retryCount + 1⟩)) := by
  refine ⟨?_, ?_, ?_⟩
  · intro hgt
    simp only [handleRetry, if_pos hgt]
    refine ⟨trivial, trivial, ?_, ?_⟩
    · intro e he
      have := List.of_mem_filter he
      simpa using this
    · intro hcount
      show (q.queue.filter (fun e => !(e.id == m.id))).length + 1 = q.queue.length
      have hsplit :
          (q.queue.filter (fun e => e.id == m.id)).length +
            (q.queue.filter (fun e => !(e.id == m.id))).length = q.queue.length := by
        induction q.queue with
        | nil => rfl
        | cons e es ihq =>
          by_cases he : (e.id == m.id) = true
          · simp [List.filter_cons, he, Nat.succ_add]
            omega
          · rw [Bool.not_eq_true] at he
            simp [List.filter_cons, he]
            omega
      rw [← List.countP_eq_length_filter] at hsplit
      omega
  · intro hle
    have hnot : ¬ (q.retryLimit < m.retryCount + 1) := by omega
    simp only [handleRetry, if_neg hnot]
    exact ⟨trivial, trivial, rfl, rfl⟩
  · intro rest hq
    have hdq : (dequeue q).2 = { q with queue := rest } := by
      simp [dequeue, hq]
    constructor
    · intro hgt hrest
      rw [hdq]
      simp only [handleRetry, if_pos hgt]
      constructor
      · show (rest.filter (fun e => !(e.id == m.id))).length + 1 = q.size
        have heq : rest.filter (fun e => !(e.id == m.id)) = rest := by
          rw [List.filter_eq_self]
          intro e he
          simp [hrest e he]
        rw [heq]
        show rest.length + 1 = q.queue.length
        rw [hq]
        rfl
      · rfl
    · intro hle
      have hnot : ¬ (q.retryLimit < m.retryCount + 1) := by omega
      rw [hdq]
      simp only [handleRetry, if_neg hnot]
      constructor
      · show rest.length + 1 = q.queue.length
        rw [hq]
        rfl
      · rfl

/-- Witness for C3 (amended) at concrete inputs: a message at the retry
limit is dropped with one drop-callback invocation, and a just-dequeued
message below the limit is re-inserted at the front with net size
unchanged. -/
theorem C3_witness :
    ((handleRetry ⟨[⟨"a", "p", 3⟩], 3⟩ ⟨"a", "p", 3⟩).dropped = true ∧
     (handleRetry ⟨[⟨"a", "p", 3⟩], 3⟩ ⟨"a", "p", 3⟩).state.size + 1 = 1) ∧
    ((handleRetry (dequeue ⟨[⟨"b", "q", 0⟩], 3⟩).2 ⟨"b", "q", 0⟩).state.size = 1 ∧
     peek (handleRetry (dequeue ⟨[⟨"b", "q", 0⟩], 3⟩).2 ⟨"b", "q", 0⟩).state =
       some ⟨"b", "q", 1⟩) := by
  constructor
  · have h := (C3_handleRetry_amended ⟨[⟨"a", "p", 3⟩], 3⟩ ⟨"a", "p", 3⟩).1
      (by decide)
    exact ⟨h.1, h.2.2.2 (by decide)⟩
  · exact ((C3_handleRetry_amended ⟨[⟨"b", "q", 0⟩], 3⟩ ⟨"b", "q", 0⟩).2.2
      [] rfl).2 (by decide)

/-! ## Message parser (src/scripts/content/messageParser.js, final draft)

`normalize` receives an arbitrary JavaScript value; we model the dynamic
input with a small universe `JSVal`.  The regex character classes are the
ASCII reading of `\w` (`[A-Za-z0-9_]`) and `\s` (ASCII whitespace); the
default tokenizing pattern `/\b\w+\b/g` matches the maximal runs of word
characters. -/

inductive JSVal where
  | str : String → JSVal
  | num : Int → JSVal
  | nullV : JSVal
  | undef : JSVal
  | boolV : Bool → JSVal
deriving DecidableEq, Repr

/-- `typeof v === 'string'`. -/
def JSVal.isString : JSVal → Bool
  | .str _ => true
  | _ => false

/-- Membership in the regex class `\w`: ASCII letters, digits, underscore. -/
def isWordChar (c : Char) : Bool := c.isAlphanum || c == '_'

/-- Membership in the regex class `\s`, restricted to ASCII whitespace
(space, tab, line feed, carriage return, vertical tab, form feed). -/
def isSpaceChar (c : Char) : Bool :=
  c == ' ' || c == '\t' || c == '\n' || c == '\r' ||
  c == Char.ofNat 11 || c == Char.ofNat 12

/-- `String.prototype.trim`: drop leading and trailing whitespace. -/
def jsTrim (s : String) : String :=
  String.mk (((s.toList.dropWhile isSpaceChar).reverse.dropWhile isSpaceChar).reverse)

/-- `String.prototype.toLowerCase` on ASCII content. -/
def jsToLower (s : String) : String := String.mk (s.toList.map Char.toLower)

/-- `.replace(/[^\w\s]/g, '')`: delete every character that is neither a
word character nor whitespace. -/
def stripNonWordSpace (s : String) : String :=
  String.mk (s.toList.filter (fun c => isWordChar c || isSpaceChar c))

/-- `MessageParser.normalize(message)`: non-string input is only warned
about and yields `""`; a string is trimmed, lowercased, and stripped of
punctuation, in that order. -/
def normalize (v : JSVal) : String :=
  match v with
  | .str s => stripNonWordSpace (jsToLower (jsTrim s))
  | _ => ""

/-- Maximal runs of word characters, the matches of the default pattern
`/\b\w+\b/g`; the accumulator holds the current run reversed. -/
def wordRunsAux : List Char → List Char → List String
  | [], acc => if acc.isEmpty then [] else [String.mk acc.reverse]
  | c :: cs, acc =>
    if isWordChar c then wordRunsAux cs (c :: acc)
    else if acc.isEmpty then wordRunsAux cs []
    else String.mk acc.reverse :: wordRunsAux cs []

def wordRuns (s : String) : List String := wordRunsAux s.toList []

/-- The parser configuration: the compiled matching pattern (modelled as
the function giving `normalized.match(pattern) || []`) and the
exclusion-token list. -/
structure MessageParser where
  pattern : String → List String
  exclusionList : List String

/-- `new MessageParser()` with no options: default pattern, no
exclusions. -/
def defaultMessageParser : MessageParser := ⟨wordRuns, []⟩

/-- `MessageParser.parse(message)`: normalize, match, drop excluded
tokens. -/
def parse (p : MessageParser) (v : JSVal) : List String :=
  (p.pattern (normalize v)).filter (fun t => !(p.exclusionList.contains t))

/-- C7: `normalize` returns `""` for every non-string input without
throwing, and on strings is exactly trim-then-lowercase-then-strip; in
particular `normalize(123) = ""` and
`normalize("Hello, WORLD!") = "hello world"`. -/
theorem C7_normalize_spec :
    (∀ v : JSVal, v.isString = false → normalize v = "") ∧
    (∀ s : String, normalize (.str s) = stripNonWordSpace (jsToLower (jsTrim s))) ∧
    normalize (.num 123) = "" ∧
    normalize (.str "Hello, WORLD!") = "hello world" := by
  refine ⟨?_, fun s => rfl, rfl, by decide⟩
  intro v hv
  cases v with
  | str s => exact absurd hv (by simp [JSVal.isString])
  | num n => rfl
  | nullV => rfl
  | undef => rfl
  | boolV b => rfl

/-- Witness for C7 at the concrete non-string input `null`. -/
theorem C7_witness : normalize JSVal.nullV = "" :=
  C7_normalize_spec.1 JSVal.nullV rfl

/-! ## Message processor (src/scripts/services/messageProcessor.js) -/

/-- The optional collaborators injected into `MessageProcessor`. -/
structure ProcOptions where
  filterFunc : Option (String → Bool)
  exclusionChecker : Option (JSVal → List String → Bool)
  mediaAnalyzer : Option (JSVal → String)

structure ProcessingResult where
  tokens : List String
  excluded : Bool
  mediaAnalysis : Option String
deriving DecidableEq, Repr

/-- `MessageProcessor.process(message)` as written in src: parse, filter
when a filter is provided, exclusion-check, media-analyze.  There is no
type check on `message`; the raw value flows into `parser.parse`. -/
def process (parser : MessageParser) (opts : ProcOptions) (message : JSVal) :
    ProcessingResult :=
  let tokens := parse parser message
  let tokens :=
    match opts.filterFunc with
    | some f => tokens.filter f
    | none => tokens
  let excluded :=
    match opts.exclusionChecker with
    | some c => c message tokens
    | none => false
  let mediaAnalysis :=
    match opts.mediaAnalyzer with
    | some f => some (f message)
    | none => none
  ⟨tokens, excluded, mediaAnalysis⟩

/-- C6 (code bug): contrary to the spec and to the repository's own tests
(`process(null)` is expected to reject with a TypeError), the `process` in
src has no type check, and the final parser's `normalize` coerces
non-strings to `""`, so `process(null)` and `process(42)` return the
neutral `ProcessingResult` instead of failing. -/
theorem C6_process_no_type_error :
    process defaultMessageParser ⟨none, none, none⟩ JSVal.nullV =
      ⟨[], false, none⟩ ∧
    process defaultMessageParser ⟨none, none, none⟩ (JSVal.num 42) =
      ⟨[], false, none⟩ :=
  ⟨rfl, rfl⟩

/-! ## Media handler (src/scripts/services/mediaHandler.js)

DOM elements are modelled by the constructors `createMediaElement` and
`generateFallback` can produce; the result of one insertion task is a
success carrying the created element or a failure carrying the error
message and the fallback element. -/

structure Media where
  type : String
  src : String
  alt : Option String
deriving DecidableEq, Repr

inductive Elem where
  | img : String → String → Elem
  | video : String → Elem
  | span : String → Elem
  | fallbackDiv : String → Elem
deriving DecidableEq, Repr

/-- `validateMediaAvailability(media)`: throws `'Media source URL missing'`
when `src` is falsy. -/
def validateMediaAvailability (m : Media) : Except String Unit :=
  if m.src = "" then .error "Media source URL missing" else .ok ()

/-- `createMediaElement(media)`: an `img` for `'image'`, a `video` for
`'video'`, a generic placeholder `span` otherwise. -/
def createMediaElement (m : Media) : Elem :=
  if m.type = "image" then .img m.src (m.alt.getD "")
  else if m.type = "video" then .video m.src
  else .span "[Unsupported media type]"

/-- `generateFallback(media)`: a `div.media-fallback` with the
human-readable unavailable text. -/
def generateFallback (m : Media) : Elem :=
  .fallbackDiv ("[Media unavailable: " ++ m.type ++ "]")

inductive InsResult where
  | success : Elem → InsResult
  | failure : String → Elem → InsResult
deriving DecidableEq, Repr

/-- The body of a task's `insert()`: validate, create, insert; any thrown
error is caught and turned into the failure result with a fallback. -/
def taskInsert (m : Media) : InsResult :=
  match validateMediaAvailability m with
  | .error e => .failure e (generateFallback m)
  | .ok _ => .success (createMediaElement m)

/-- A JavaScript value reaching `processInsertionQueue`: either an actual
task object for a media descriptor, or — what the `async`
`createInsertionTask` really returns — a `Promise` resolving to one. -/
inductive TaskVal where
  | taskObj : Media → TaskVal
  | promiseOfTask : Media → TaskVal
deriving DecidableEq, Repr

/-- `await task.insert()`: on a task object this runs the insert body; on
a `Promise` the property `insert` is `undefined` and the call throws a
TypeError. -/
def callInsert : TaskVal → Except String InsResult
  | .taskObj m => .ok (taskInsert m)
  | .promiseOfTask _ => .error "task.insert is not a function"

/-- `processInsertionQueue(insertionTasks)`: sequential `for` loop invoking
each `task.insert()` in array order; an uncaught throw rejects the whole
call. -/
def processInsertionQueue : List TaskVal → Except String (List InsResult)
  | [] => .ok []
  | t :: ts =>
    match callInsert t with
    | .error e => .error e
    | .ok r =>
      match processInsertionQueue ts with
      | .error e => .error e
      | .ok rs => .ok (r :: rs)

/-- `createInsertionTask(media, target)` is declared `async`, so its value
is a Promise of the task object, not the task object. -/
def createInsertionTask (m : Media) : TaskVal := .promiseOfTask m

/-- `insertMediaIntoNewMessage`: maps `createInsertionTask` over the media
descriptors (without awaiting) and hands the array to
`processInsertionQueue`. -/
def insertMediaIntoNewMessage (media : List Media) : Except String (List InsResult) :=
  processInsertionQueue (media.map createInsertionTask)

/-- C4 (code bug): because `createInsertionTask` is `async` and its result
is never awaited, `insertMediaIntoNewMessage` rejects with the TypeError
`task.insert is not a function` for every non-empty media list — here at
the repository's own sample descriptor — instead of returning one result
per descriptor.  Had the queue received the task objects themselves, the
claimed per-item semantics do hold: one result per descriptor in input
order, failures isolated per item, a falsy `src` producing the
`Media source URL missing` failure with the `[Media unavailable: <type>]`
fallback, and every other item a success. -/
theorem C4_insertMedia_rejects :
    insertMediaIntoNewMessage
        [⟨"image", "https://example.com/image.jpg", some "Example Image"⟩] =
      .error "task.insert is not a function" ∧
    (∀ ms : List Media,
       processInsertionQueue (ms.map TaskVal.taskObj) = .ok (ms.map taskInsert)) ∧
    taskInsert ⟨"video", "", none⟩ =
      .failure "Media source URL missing" (.fallbackDiv "[Media unavailable: video]") ∧
    processInsertionQueue
        [TaskVal.taskObj ⟨"video", "", none⟩,
         TaskVal.taskObj ⟨"image", "https://example.com/image.jpg", some "Example Image"⟩] =
      .ok [.failure "Media source URL missing" (.fallbackDiv "[Media unavailable: video]"),
           .success (.img "https://example.com/image.jpg" "Example Image")] := by
  refine ⟨rfl, ?_, by decide, rfl⟩
  intro ms
  induction ms with
  | nil => rfl
  | cons m rest ih =>
    simp only [List.map_cons, processInsertionQueue, callInsert, ih]

end RecycleContent
